import Mathlib

/-!
Verification of the uzbektourist.ai retrieval core and itinerary normalizer.

The development shallowly embeds two parts of the codebase:

* `src/lib/rag.ts` — tokenizer, paragraph chunker, TF-IDF index builder and
  cosine-similarity retriever.  JavaScript floating point numbers are modelled
  as real numbers; `Math.log` is `Real.log` and `Math.sqrt` is `Real.sqrt`.
  `Map<string, number>` values are modelled as association lists
  `List (String × ℝ)` keyed in insertion order.

* `src/app/api/chat/route.ts` — `coerceStringArray` and `normalizeItinerary`.
  Parsed JSON values are modelled by the inductive `JValue`; JavaScript numbers
  reachable here are finite (they come from `JSON.parse` or from a previously
  normalized itinerary), so they are modelled as rationals, and the result of
  the `Number(..)` coercion is an `Option ℚ` whose `none` stands for a
  non-finite result (`NaN` or `±Infinity`), which is exactly the case the code
  tests with `Number.isFinite`.
-/

namespace Uzbek

/-! ## Model of JavaScript values reaching the itinerary normalizer -/

/-- A parsed JSON-like JavaScript value.  `undefined` never occurs inside a
parsed value; an absent object property is represented by `Option.none` at the
lookup site.  Numbers are finite (see the module comment). -/
inductive JValue where
  | null : JValue
  | bool : Bool → JValue
  | num : ℚ → JValue
  | str : String → JValue
  | arr : List JValue → JValue
  | obj : List (String × JValue) → JValue

/-- ASCII whitespace trimmed by `String.prototype.trim` (the Unicode space
characters it also trims are not representable in the inputs we consider). -/
def isJsWhitespace (c : Char) : Bool :=
  c = ' ' || c = '\t' || c = '\n' || c = '\r' || c = '\x0b' || c = '\x0c'

/-- JavaScript `s.trim()`: drop leading and trailing whitespace. -/
def jsTrim (s : String) : String :=
  String.mk (((s.toList.dropWhile isJsWhitespace).reverse.dropWhile isJsWhitespace).reverse)

/-- Decimal string representation of a rational.  JavaScript renders an
integral float without a fractional part, which is the only case exercised by
the claims; non-integral rationals are rendered as a fraction (an
approximation of JavaScript float formatting, unused by the claims). -/
def ratToString (q : ℚ) : String :=
  if q.den = 1 then toString q.num else toString q.num ++ "/" ++ toString q.den

mutual

/-- JavaScript `String(v)` for a parsed value: identity on strings, `"null"`
for null, `"true"`/`"false"` for booleans, decimal for numbers, the
comma-joined element strings for an array (with `null` elements rendered
empty, as `Array.prototype.join` does) and `"[object Object]"` for objects. -/
def jToString : JValue → String
  | .null => "null"
  | .bool b => if b then "true" else "false"
  | .num q => ratToString q
  | .str s => s
  | .arr xs => jArrToString xs
  | .obj _ => "[object Object]"

/-- Comma-joined rendering of an array's elements; a `null` element renders
as the empty string (JavaScript `Array.prototype.join` semantics). -/
def jArrToString : List JValue → String
  | [] => ""
  | [.null] => ""
  | [v] => jToString v
  | .null :: vs => "," ++ jArrToString vs
  | v :: vs => jToString v ++ "," ++ jArrToString vs

end

/-- JavaScript truthiness of a parsed value (`NaN` cannot occur here, see the
module comment). -/
def truthy : JValue → Bool
  | .null => false
  | .bool b => b
  | .num q => !(q == 0)
  | .str s => !(s == "")
  | .arr _ => true
  | .obj _ => true

/-- Property access `v[key]` on a parsed value: a lookup for objects, absent
for every other shape (the properties accessed by the normalizer never exist
on arrays, strings or primitives). -/
def getField (v : JValue) (key : String) : Option JValue :=
  match v with
  | .obj fields => fields.lookup key
  | _ => none

/-- Value of a decimal digit string. -/
def digitsToNat (ds : List Char) : ℕ :=
  ds.foldl (fun n c => 10 * n + (c.toNat - '0'.toNat)) 0

/-- JavaScript string-to-number conversion restricted to plain decimal
literals: surrounding whitespace is ignored, the empty string is `0`, an
optional sign followed by digits with an optional fractional part parses to
that value, and everything else (including exponent, hex and `Infinity`
literals, which never arise in the claims) is not a finite number. -/
def strToNumber (s : String) : Option ℚ :=
  let cs := (jsTrim s).toList
  if cs = [] then some 0
  else
    let signAndRest : ℚ × List Char :=
      match cs with
      | '-' :: rest => (-1, rest)
      | '+' :: rest => (1, rest)
      | _ => (1, cs)
    let intPart := signAndRest.2.takeWhile Char.isDigit
    let rest := signAndRest.2.dropWhile Char.isDigit
    match rest with
    | [] => if intPart = [] then none else some (signAndRest.1 * digitsToNat intPart)
    | '.' :: frac =>
      if frac.all Char.isDigit ∧ (intPart ≠ [] ∨ frac ≠ []) then
        some (signAndRest.1 * ((digitsToNat intPart : ℚ) + (digitsToNat frac : ℚ) / (10 ^ frac.length)))
      else none
    | _ => none

/-- JavaScript `Number(v)`: `some q` when the result is the finite number `q`
and `none` when the result is not finite (`NaN`).  Arrays and objects convert
through their string form, as the ToPrimitive algorithm does. -/
def toNumber : JValue → Option ℚ
  | .null => some 0
  | .bool b => some (if b then 1 else 0)
  | .num q => some q
  | .str s => strToNumber s
  | v => strToNumber (jToString v)

/-! ## The itinerary normalizer (`src/app/api/chat/route.ts`) -/

/-- One normalized itinerary day (`ItineraryDay` in the source). -/
structure ItineraryDay where
  day : ℚ
  theme : Option String
  morning : List String
  afternoon : List String
  evening : List String
deriving DecidableEq

/-- One normalized practical tip. -/
structure ItineraryTip where
  label : String
  details : List String
deriving DecidableEq

/-- The normalized itinerary (`Itinerary` in the source). -/
structure Itinerary where
  title : String
  days : List ItineraryDay
  transportNotes : List String
  tips : List ItineraryTip
  sources : List String
deriving DecidableEq

/-- Definition of `coerceStringArray` from the source: a falsy value gives `[]`, an array is
stringified element-wise, anything else is wrapped in a singleton; entries
whose trim is empty are dropped. -/
def coerceStringArray : Option JValue → List String
  | none => []
  | some value =>
    if !truthy value then []
    else
      match value with
      | .arr xs => (xs.map (fun item => jToString item)).filter (fun item => (jsTrim item).length > 0)
      | v => [jToString v].filter (fun item => (jsTrim item).length > 0)

/-- Coercion of one entry of the `days` array (the `daysRaw.map` callback in
`normalizeItinerary`).  `index` is the 0-based position of the entry. -/
def coerceDay (index : ℕ) (dayItem : JValue) : ItineraryDay :=
  let dayNumber : Option ℚ :=
    match getField dayItem "day" with
    | none => some ((index + 1 : ℕ) : ℚ)
    | some .null => some ((index + 1 : ℕ) : ℚ)
    | some v => toNumber v
  { day := dayNumber.getD ((index + 1 : ℕ) : ℚ)
    theme :=
      match getField dayItem "theme" with
      | some v => if truthy v then some (jToString v) else none
      | none => none
    morning := coerceStringArray (getField dayItem "morning")
    afternoon := coerceStringArray (getField dayItem "afternoon")
    evening := coerceStringArray (getField dayItem "evening") }

/-- Coercion of one entry of the `tips` array. -/
def coerceTip (tip : JValue) : ItineraryTip :=
  { label :=
      match getField tip "label" with
      | some v => if truthy v then jToString v else "Tip"
      | none => "Tip"
    details := coerceStringArray (getField tip "details") }

/-- The `days` field of the parsed value when it is an array, else `[]`
(`Array.isArray(obj.days) ? obj.days : []`). -/
def daysRawOf (raw : JValue) : List JValue :=
  match getField raw "days" with
  | some (.arr l) => l
  | _ => []

/-- The guard `!raw || typeof raw !== "object"` rejects exactly the values
that are neither objects nor arrays (null is falsy, so it is rejected even
though `typeof null` is `"object"`). -/
def isObjectLike : JValue → Bool
  | .obj _ => true
  | .arr _ => true
  | _ => false

/-- Definition of `normalizeItinerary` from the source. -/
def normalizeItinerary (raw : JValue) (fallbackSources : List String) : Option Itinerary :=
  if !isObjectLike raw then none
  else
    let days := (daysRawOf raw).mapIdx coerceDay
    if days.length = 0 then none
    else
      let title :=
        match getField raw "title" with
        | some v => if truthy v then jToString v else "Itinerary"
        | none => "Itinerary"
      let transportNotes := coerceStringArray (getField raw "transportNotes")
      let tipsRaw : List JValue :=
        match getField raw "tips" with
        | some (.arr l) => l
        | _ => []
      let tips := tipsRaw.map coerceTip
      let sources := coerceStringArray (getField raw "sources")
      let normalizedSources := if sources.length > 0 then sources else fallbackSources
      some { title := title, days := days, transportNotes := transportNotes,
             tips := tips, sources := normalizedSources }

/-! ## Round-tripping a normalized itinerary back into a parsed value

Feeding an `Itinerary` "back into normalize as a parsed value" means reading
it as the JavaScript object of its own shape; `undefined` optional fields
(an absent `theme`) simply do not appear as properties. -/

/-- The parsed-value shape of a normalized day. -/
def dayToJValue (d : ItineraryDay) : JValue :=
  match d.theme with
  | some t =>
    .obj [("day", .num d.day), ("theme", .str t),
          ("morning", .arr (d.morning.map JValue.str)),
          ("afternoon", .arr (d.afternoon.map JValue.str)),
          ("evening", .arr (d.evening.map JValue.str))]
  | none =>
    .obj [("day", .num d.day),
          ("morning", .arr (d.morning.map JValue.str)),
          ("afternoon", .arr (d.afternoon.map JValue.str)),
          ("evening", .arr (d.evening.map JValue.str))]

/-- The parsed-value shape of a normalized tip. -/
def tipToJValue (t : ItineraryTip) : JValue :=
  .obj [("label", .str t.label), ("details", .arr (t.details.map JValue.str))]

/-- The parsed-value shape of a normalized itinerary. -/
def itineraryToJValue (it : Itinerary) : JValue :=
  .obj [("title", .str it.title),
        ("days", .arr (it.days.map dayToJValue)),
        ("transportNotes", .arr (it.transportNotes.map JValue.str)),
        ("tips", .arr (it.tips.map tipToJValue)),
        ("sources", .arr (it.sources.map JValue.str))]

/-! ## The retrieval engine (`src/lib/rag.ts`) -/

/-- The stopword set of the tokenizer. -/
def STOPWORDS : List String :=
  ["a", "an", "and", "are", "as", "at", "be", "but", "by", "for", "from",
   "has", "he", "in", "is", "it", "its", "of", "on", "or", "that", "the",
   "to", "was", "were", "will", "with", "you", "your"]

/-- The tokenizer: lowercase, replace every character outside `[a-z0-9]` by a
space (whitespace splits anyway, so mapping it to a space as well is
equivalent to the source's `[^a-z0-9\s]` replacement followed by the split on
whitespace runs), split on space runs, and keep tokens longer than 2
characters that are not stopwords.  ASCII model of `toLowerCase`. -/
def tokenize (text : String) : List String :=
  ((((text.toList.map (fun c => c.toLower)).map
      (fun c => if ('a' ≤ c ∧ c ≤ 'z') ∨ ('0' ≤ c ∧ c ≤ '9') then c else ' ')).splitOnP
      (fun c => c == ' ')).map (fun cs => String.mk cs)).filter
    (fun token => token.length > 2 && !(STOPWORDS.contains token))

/-- One step of the paragraph splitter, consuming characters right to left:
`run` counts the newline run touching the left edge of the current piece. -/
def splitStep (c : Char) (st : ℕ × List Char × List (List Char)) : ℕ × List Char × List (List Char) :=
  match st with
  | (run, cur, done) =>
    if c = '\n' then (run + 1, cur, done)
    else if run ≥ 2 then (0, [c], cur :: done)
    else (0, c :: (List.replicate run '\n' ++ cur), done)

/-- Splitting on runs of two or more newlines, i.e. `content.split(/\n{2,}/)`:
a run of at least two `\n` separates pieces, a single `\n` stays inside its
piece. -/
def splitOnBlankLines (cs : List Char) : List (List Char) :=
  match cs.foldr splitStep (0, [], []) with
  | (run, cur, done) =>
    if run ≥ 2 then [] :: cur :: done
    else (List.replicate run '\n' ++ cur) :: done

/-- A source document (`SourceRecord` in the source). -/
structure SourceRecord where
  id : String
  title : String
  url : String
  content : String
  tags : Option (List String)
deriving DecidableEq

/-- Helper of `chunkContent`: the paragraphs of the document, trimmed, with
empty results dropped (`filter(Boolean)`). -/
def paragraphsOf (source : SourceRecord) : List String :=
  ((splitOnBlankLines source.content.toList).map
    (fun item => jsTrim (String.mk item))).filter (fun s => s != "")

/-- Definition of `chunkContent` from the source: paragraph chunks, or the whole trimmed
content as a single chunk when the split yields no paragraph and the trimmed
content is non-empty. -/
def chunkContent (source : SourceRecord) : List String :=
  let paragraphs := paragraphsOf source
  if paragraphs.length = 0 ∧ jsTrim source.content ≠ "" then
    [jsTrim source.content]
  else
    paragraphs

/-- A chunk with its token list, the element shape of `rawChunks` in
`buildIndex`. -/
structure RawChunk where
  id : String
  sourceId : String
  title : String
  url : String
  content : String
  tokens : List String

/-- Definition of `computeIdf` from the source.  The document-frequency map `df` holds one
entry per token occurring in some chunk, keyed in first-occurrence order;
`df(token)` is the number of chunks containing `token`. -/
noncomputable def computeIdf (chunks : List RawChunk) : List (String × ℝ) :=
  let docCount : ℝ := if chunks.length = 0 then 1 else (chunks.length : ℝ)
  ((chunks.map (fun chunk => chunk.tokens.dedup)).flatten.dedup).map
    (fun token =>
      (token,
        Real.log ((docCount + 1) /
          ((chunks.countP (fun chunk => chunk.tokens.contains token) : ℝ) + 1)) + 1))

/-- Definition of `computeTfidf` from the source: the term-frequency map holds one entry
per distinct token; each weight is `(count / total) * (idf.get(token) ?? 1)`
and the returned norm is the square root of the sum of squared weights. -/
noncomputable def computeTfidf (tokens : List String) (idf : List (String × ℝ)) :
    List (String × ℝ) × ℝ :=
  let total : ℝ := if tokens.length = 0 then 1 else (tokens.length : ℝ)
  let vector := tokens.dedup.map
    (fun token => (token, ((tokens.count token : ℝ) / total) * ((idf.lookup token).getD 1)))
  let norm := (vector.map (fun p => p.2 * p.2)).sum
  (vector, Real.sqrt norm)

/-- A fully built chunk (`Chunk` in the source). -/
structure Chunk where
  id : String
  sourceId : String
  title : String
  url : String
  content : String
  tfidf : List (String × ℝ)
  norm : ℝ

/-- The in-memory index (`Index` in the source). -/
structure Index where
  chunks : List Chunk
  idf : List (String × ℝ)

/-- A query-time result (`RetrievedChunk` in the source). -/
structure RetrievedChunk where
  id : String
  sourceId : String
  title : String
  url : String
  content : String
  score : ℝ

/-- Definition of `cosineSimilarity` from the source: `0` when either norm is `0`; else the
dot product over the query vector's entries (a token absent from the chunk
vector — or with a falsy weight, which contributes nothing to a sum either
way — counts as `0`) divided by the product of the norms. -/
noncomputable def cosineSimilarity (queryVector : List (String × ℝ)) (queryNorm : ℝ)
    (chunk : Chunk) : ℝ :=
  if queryNorm = 0 ∨ chunk.norm = 0 then 0
  else
    ((queryVector.map (fun p => p.2 * ((chunk.tfidf.lookup p.1).getD 0))).sum) /
      (queryNorm * chunk.norm)

/-- Definition of `buildIndex` from the source, parameterized by the loaded document set
(loading `data/sources.json` from disk is the external collaborator's job).
Chunks are named `<sourceId>-<ordinal>` with 1-based ordinals. -/
noncomputable def buildIndex (sources : List SourceRecord) : Index :=
  let rawChunks : List RawChunk := sources.flatMap (fun source =>
    (chunkContent source).mapIdx (fun index part =>
      { id := source.id ++ "-" ++ toString (index + 1), sourceId := source.id,
        title := source.title, url := source.url, content := part,
        tokens := tokenize part }))
  let idf := computeIdf rawChunks
  { chunks := rawChunks.map (fun chunk =>
      let vn := computeTfidf chunk.tokens idf
      { id := chunk.id, sourceId := chunk.sourceId, title := chunk.title,
        url := chunk.url, content := chunk.content, tfidf := vn.1, norm := vn.2 }),
    idf := idf }

/-- Definition of `retrieve` from the source, parameterized by the index (the source reads
it from the process-wide cache).  The `.sort((a, b) => b.score - a.score)` is
a stable sort by descending score, modelled by `mergeSort` with the
comparator `b.score ≤ a.score`. -/
noncomputable def retrieve (index : Index) (query : String) (limit : ℕ) : List RetrievedChunk :=
  if index.chunks.length = 0 then []
  else
    let tokens := tokenize query
    if tokens.length = 0 then []
    else
      let vn := computeTfidf tokens index.idf
      let scored :=
        ((((index.chunks.map (fun chunk => (chunk, cosineSimilarity vn.1 vn.2 chunk))).filter
            (fun item => decide ((0.05 : ℝ) < item.2))).mergeSort
            (fun a b => decide (b.2 ≤ a.2))).take limit)
      scored.map (fun item =>
        ({ id := item.1.id, sourceId := item.1.sourceId, title := item.1.title,
           url := item.1.url, content := item.1.content, score := item.2 } : RetrievedChunk))

/-- The `RetrievedChunk` view of a chunk at a given score, used to state that
tied results keep the original chunk order. -/
def chunkAtScore (c : Chunk) (s : ℝ) : RetrievedChunk :=
  { id := c.id, sourceId := c.sourceId, title := c.title, url := c.url,
    content := c.content, score := s }

/-- A one-chunk corpus used to instantiate the IDF and TF-IDF theorems on a
concrete input. -/
def sampleChunks : List RawChunk :=
  [{ id := "a-1", sourceId := "a", title := "T", url := "U",
     content := "samarkand", tokens := ["samarkand"] }]

/-! ## Lemmas about the itinerary normalizer -/

/-- The record produced by a successful normalization. -/
def normalizedRecord (raw : JValue) (fallbackSources : List String) : Itinerary :=
  { title :=
      match getField raw "title" with
      | some v => if truthy v then jToString v else "Itinerary"
      | none => "Itinerary"
    days := (daysRawOf raw).mapIdx coerceDay
    transportNotes := coerceStringArray (getField raw "transportNotes")
    tips :=
      (match getField raw "tips" with
       | some (.arr l) => l
       | _ => []).map coerceTip
    sources :=
      if (coerceStringArray (getField raw "sources")).length > 0 then
        coerceStringArray (getField raw "sources")
      else fallbackSources }

theorem normalizeItinerary_eq (raw : JValue) (fst : List String) :
    normalizeItinerary raw fst =
      if isObjectLike raw = true ∧ (daysRawOf raw).mapIdx coerceDay ≠ [] then
        some (normalizedRecord raw fst)
      else none := by
  unfold normalizeItinerary normalizedRecord
  by_cases hobj : isObjectLike raw
  · by_cases hne : (daysRawOf raw).mapIdx coerceDay = []
    · simp [hobj, hne]
    · rw [List.mapIdx_eq_nil_iff] at hne
      simp [hobj, hne, List.length_eq_zero]
  · simp [hobj]

theorem normalizeItinerary_inv {raw : JValue} {fst : List String} {it : Itinerary}
    (h : normalizeItinerary raw fst = some it) :
    isObjectLike raw = true ∧ (daysRawOf raw).mapIdx coerceDay ≠ [] ∧
      it = normalizedRecord raw fst := by
  rw [normalizeItinerary_eq] at h
  by_cases hc : isObjectLike raw = true ∧ (daysRawOf raw).mapIdx coerceDay ≠ []
  · refine ⟨hc.1, hc.2, ?_⟩
    rw [if_pos hc] at h
    exact (Option.some.inj h).symm
  · rw [if_neg hc] at h
    exact absurd h (by simp)

theorem string_length_pos_iff {s : String} : 0 < s.length ↔ s ≠ "" := by
  rcases s with ⟨cs⟩
  simp [String.ext_iff, List.length_pos]

theorem daysRawOf_arr {raw : JValue} {l : List JValue}
    (h : getField raw "days" = some (.arr l)) : daysRawOf raw = l := by
  unfold daysRawOf
  rw [h]

theorem daysRawOf_eq_nil_of_not_arr {raw : JValue}
    (h : ∀ l, getField raw "days" ≠ some (.arr l)) : daysRawOf raw = [] := by
  unfold daysRawOf
  rcases hg : getField raw "days" with _ | v
  · rfl
  · cases v with
    | arr l => exact absurd hg (h l)
    | null => rfl
    | bool b => rfl
    | num q => rfl
    | str s => rfl
    | obj fs => rfl

theorem exists_arr_of_daysRawOf_ne_nil {raw : JValue} (h : daysRawOf raw ≠ []) :
    ∃ l, getField raw "days" = some (.arr l) := by
  by_contra hno
  push_neg at hno
  exact h (daysRawOf_eq_nil_of_not_arr hno)

/-- C5: `normalize` returns null exactly when the parsed value is not an
object, or its `days` field is missing or not an array, or the day list
obtained after per-entry coercion is empty; `normalize` of an object with
only a `title` field is null for every fallback list, and every non-null
result has a non-empty `days` sequence. -/
theorem normalizeItinerary_none_iff (raw : JValue) (fst : List String) :
    (normalizeItinerary raw fst = none ↔
      isObjectLike raw = false ∨ (∀ l, getField raw "days" ≠ some (.arr l)) ∨
        (daysRawOf raw).mapIdx coerceDay = [])
    ∧ (∀ fst2 : List String, normalizeItinerary (.obj [("title", .str "X")]) fst2 = none)
    ∧ (∀ it, normalizeItinerary raw fst = some it → it.days ≠ []) := by
  refine ⟨?_, fun fst2 => rfl, ?_⟩
  · rw [normalizeItinerary_eq]
    by_cases hobj : isObjectLike raw
    · by_cases hne : (daysRawOf raw).mapIdx coerceDay = []
      · simp [hobj, hne]
      · have hex : ∃ l, getField raw "days" = some (.arr l) := by
          apply exists_arr_of_daysRawOf_ne_nil
          intro hnil
          exact hne (by rw [hnil]; rfl)
        obtain ⟨l, hl⟩ := hex
        simp only [hobj, hne, true_and, ne_eq, not_false_eq_true, if_true]
        constructor
        · intro hsome
          exact absurd hsome (by simp)
        · intro hcases
          exfalso
          rcases hcases with hobj2 | hnoarr | hnil
          · exact absurd hobj2 (by decide)
          · exact hnoarr l hl
          · exact hnil
    · have hobj2 : isObjectLike raw = false := by
        cases hb : isObjectLike raw
        · rfl
        · exact absurd hb hobj
      simp [hobj2]
  · intro it h
    obtain ⟨-, hne, rfl⟩ := normalizeItinerary_inv h
    simpa [normalizedRecord] using hne

theorem normalizeItinerary_none_iff_witness :
    ({ title := "Itinerary",
       days := [{ day := 1, theme := none, morning := [], afternoon := [], evening := [] }],
       transportNotes := [], tips := [], sources := [] } : Itinerary).days ≠ [] :=
  (normalizeItinerary_none_iff (.obj [("days", .arr [.obj []])]) []).2.2 _ (by decide)

/-- C6: for every accepted parsed object, if coercing the `sources` field
yields an empty sequence the result's sources are the caller-supplied
fallback tokens, and otherwise they are the coerced sources. -/
theorem normalizeItinerary_sources_fallback (raw : JValue) (fst : List String) (it : Itinerary)
    (h : normalizeItinerary raw fst = some it) :
    (coerceStringArray (getField raw "sources") = [] → it.sources = fst)
    ∧ (coerceStringArray (getField raw "sources") ≠ [] →
        it.sources = coerceStringArray (getField raw "sources")) := by
  obtain ⟨-, -, rfl⟩ := normalizeItinerary_inv h
  constructor
  · intro hempty
    simp [normalizedRecord, hempty]
  · intro hne
    have hpos : 0 < (coerceStringArray (getField raw "sources")).length :=
      List.length_pos.mpr hne
    simp [normalizedRecord, hpos]

theorem normalizeItinerary_sources_fallback_witness :
    normalizeItinerary (.obj [("days", .arr [.obj []]), ("sources", .arr [])]) ["S1", "S2"] =
      some { title := "Itinerary",
             days := [{ day := 1, theme := none, morning := [], afternoon := [], evening := [] }],
             transportNotes := [], tips := [], sources := ["S1", "S2"] }
    ∧ ({ title := "Itinerary",
         days := [{ day := 1, theme := none, morning := [], afternoon := [], evening := [] }],
         transportNotes := [], tips := [], sources := ["S1", "S2"] } : Itinerary).sources
        = ["S1", "S2"] :=
  ⟨by decide,
   (normalizeItinerary_sources_fallback (.obj [("days", .arr [.obj []]), ("sources", .arr [])])
      ["S1", "S2"] _ (by decide)).1 (by decide)⟩

/-- C10: whenever the `days` field is an array, coercion drops no entry: the
result has exactly one day per input element (the rejection happens exactly
for the empty input array), and a null or non-object element becomes a
default-valued day. -/
theorem normalizeItinerary_days_length (raw : JValue) (fst : List String) (l : List JValue)
    (hobj : isObjectLike raw = true) (hdays : getField raw "days" = some (.arr l)) :
    (normalizeItinerary raw fst = none ↔ l = [])
    ∧ (∀ it, normalizeItinerary raw fst = some it → it.days.length = l.length)
    ∧ (∀ (i : ℕ) (v : JValue), isObjectLike v = false →
        coerceDay i v =
          { day := (i : ℚ) + 1, theme := none, morning := [], afternoon := [], evening := [] }) := by
  have hdr : daysRawOf raw = l := daysRawOf_arr hdays
  refine ⟨?_, ?_, ?_⟩
  · rw [normalizeItinerary_eq, hdr]
    by_cases hl : l = []
    · simp [hobj, hl]
    · have : l.mapIdx coerceDay ≠ [] := by simp [List.mapIdx_eq_nil_iff, hl]
      simp [hobj, hl, this]
  · intro it h
    obtain ⟨-, -, rfl⟩ := normalizeItinerary_inv h
    simp [normalizedRecord, hdr]
  · intro i v hv
    have hd : ((i + 1 : ℕ) : ℚ) = (i : ℚ) + 1 := by push_cast; ring
    rw [← hd]
    cases v with
    | null => rfl
    | bool b => rfl
    | num q => rfl
    | str s => rfl
    | arr xs => simp [isObjectLike] at hv
    | obj fs => simp [isObjectLike] at hv

theorem normalizeItinerary_days_length_witness :
    ({ title := "Itinerary",
       days := [{ day := 1, theme := none, morning := [], afternoon := [], evening := [] }],
       transportNotes := [], tips := [], sources := [] } : Itinerary).days.length
      = [JValue.null].length :=
  (normalizeItinerary_days_length (.obj [("days", .arr [.null])]) [] [.null]
      (by rfl) (by rfl)).2.1 _ (by decide)

/-- C8 counterexample: a supplied finite `day` value is kept verbatim, so a
day entry with `day` equal to `0` survives normalization with `day = 0`,
which is not an integer greater than or equal to 1. -/
theorem normalizeItinerary_day_ge_one_cex :
    normalizeItinerary (.obj [("days", .arr [.obj [("day", .num 0)]])]) [] =
      some { title := "Itinerary",
             days := [{ day := 0, theme := none, morning := [], afternoon := [], evening := [] }],
             transportNotes := [], tips := [], sources := [] }
    ∧ ¬(1 ≤ (0 : ℚ)) := by
  exact ⟨by decide, by norm_num⟩

/-- C8 (amended): a day entry whose `day` field is absent, null, or coerces
to a non-finite number gets the entry's 1-based position (an integer at least
1); otherwise the entry keeps the numeric coercion of its `day` field, which
need not be an integer nor at least 1. -/
theorem normalizeItinerary_day_defaulting (raw : JValue) (fst : List String) (it : Itinerary)
    (h : normalizeItinerary raw fst = some it) (i : ℕ) (entry : JValue)
    (he : (daysRawOf raw)[i]? = some entry) :
    ∃ d, it.days[i]? = some d ∧
      ((getField entry "day" = none ∨ getField entry "day" = some .null ∨
          (∃ v, getField entry "day" = some v ∧ toNumber v = none)) →
        d.day = (i : ℚ) + 1 ∧ 1 ≤ d.day ∧ d.day.den = 1)
      ∧ (∀ v q, getField entry "day" = some v → v ≠ .null → toNumber v = some q →
          d.day = q) := by
  obtain ⟨-, -, rfl⟩ := normalizeItinerary_inv h
  refine ⟨coerceDay i entry, ?_, ?_, ?_⟩
  · simp [normalizedRecord, he]
  · intro hcase
    have hd : ((i + 1 : ℕ) : ℚ) = (i : ℚ) + 1 := by push_cast; ring
    have hpos : (1 : ℚ) ≤ ((i + 1 : ℕ) : ℚ) := by exact_mod_cast Nat.le_add_left 1 i
    have hden : (((i + 1 : ℕ) : ℚ)).den = 1 := Rat.den_natCast _
    rcases hcase with hnone | hnull | ⟨v, hv, hnf⟩
    · unfold coerceDay
      rw [hnone]
      exact ⟨hd, hpos, hden⟩
    · unfold coerceDay
      rw [hnull]
      exact ⟨hd, hpos, hden⟩
    · unfold coerceDay
      rw [hv]
      cases v with
      | null => simp [toNumber] at hnf
      | bool b => cases b <;> simp [toNumber] at hnf
      | num q => simp [toNumber] at hnf
      | str s => simp only; rw [show toNumber (.str s) = none from hnf]; exact ⟨hd, hpos, hden⟩
      | arr xs => simp only; rw [show toNumber (.arr xs) = none from hnf]; exact ⟨hd, hpos, hden⟩
      | obj fs => simp only; rw [show toNumber (.obj fs) = none from hnf]; exact ⟨hd, hpos, hden⟩
  · intro v q hv hvnull hq
    unfold coerceDay
    rw [hv]
    cases v with
    | null => exact absurd rfl hvnull
    | bool b => simp only; rw [show toNumber (.bool b) = some q from hq]; rfl
    | num r => simp only; rw [show toNumber (.num r) = some q from hq]; rfl
    | str s => simp only; rw [show toNumber (.str s) = some q from hq]; rfl
    | arr xs => simp only; rw [show toNumber (.arr xs) = some q from hq]; rfl
    | obj fs => simp only; rw [show toNumber (.obj fs) = some q from hq]; rfl

theorem normalizeItinerary_day_defaulting_witness :
    (({ title := "Itinerary",
        days := [{ day := 1, theme := none, morning := [], afternoon := [], evening := [] }],
        transportNotes := [], tips := [], sources := [] } : Itinerary).days[0]?.elim False
      (fun d => d.day = 1 ∧ 1 ≤ d.day ∧ d.day.den = 1)) := by
  obtain ⟨d, hd, hdef, -⟩ :=
    normalizeItinerary_day_defaulting (.obj [("days", .arr [.obj [("day", .str "soon")]])]) []
      { title := "Itinerary",
        days := [{ day := 1, theme := none, morning := [], afternoon := [], evening := [] }],
        transportNotes := [], tips := [], sources := [] }
      (by decide) 0 (.obj [("day", .str "soon")]) (by rfl)
  have h1 := hdef (Or.inr (Or.inr ⟨.str "soon", rfl, by decide⟩))
  rw [hd]
  simpa using h1

theorem coerceStringArray_roundtrip {l : List String} (h : ∀ s ∈ l, jsTrim s ≠ "") :
    coerceStringArray (some (.arr (l.map JValue.str))) = l := by
  show ((l.map JValue.str).map (fun item => jToString item)).filter _ = l
  rw [List.map_map]
  have hmap : l.map ((fun item => jToString item) ∘ JValue.str) = l := by
    have : ∀ a ∈ l, ((fun item => jToString item) ∘ JValue.str) a = id a := fun a _ => rfl
    rw [List.map_congr_left this, List.map_id]
  rw [hmap, List.filter_eq_self]
  intro a ha
  simpa [string_length_pos_iff] using h a ha

theorem mapIdx_map_eq_self {α β : Type _} (g : α → β) (f : ℕ → β → α) (l : List α)
    (h : ∀ (i : ℕ) (a : α), a ∈ l → f i (g a) = a) : (l.map g).mapIdx f = l := by
  induction l generalizing f with
  | nil => rfl
  | cons a l ih =>
    rw [List.map_cons, List.mapIdx_cons, h 0 a (List.mem_cons_self a l)]
    congr 1
    exact ih (fun i => f (i + 1)) (fun i b hb => h (i + 1) b (List.mem_cons_of_mem a hb))

theorem coerceDay_roundtrip (i : ℕ) (d : ItineraryDay)
    (hth : d.theme ≠ some "")
    (hm : ∀ s ∈ d.morning, jsTrim s ≠ "")
    (ha : ∀ s ∈ d.afternoon, jsTrim s ≠ "")
    (hev : ∀ s ∈ d.evening, jsTrim s ≠ "") :
    coerceDay i (dayToJValue d) = d := by
  rcases d with ⟨day, theme, morning, afternoon, evening⟩
  simp only at hm ha hev
  rcases theme with _ | t
  · show ({ day := (toNumber (.num day)).getD _,
            theme := none,
            morning := coerceStringArray (some (.arr (morning.map JValue.str))),
            afternoon := coerceStringArray (some (.arr (afternoon.map JValue.str))),
            evening := coerceStringArray (some (.arr (evening.map JValue.str))) } : ItineraryDay) = _
    rw [coerceStringArray_roundtrip hm, coerceStringArray_roundtrip ha,
      coerceStringArray_roundtrip hev]
    rfl
  · have ht : t ≠ "" := by
      intro h
      exact hth (by simp only at hth ⊢; rw [h])
    show ({ day := (toNumber (.num day)).getD _,
            theme := if truthy (.str t) then some (jToString (.str t)) else none,
            morning := coerceStringArray (some (.arr (morning.map JValue.str))),
            afternoon := coerceStringArray (some (.arr (afternoon.map JValue.str))),
            evening := coerceStringArray (some (.arr (evening.map JValue.str))) } : ItineraryDay) = _
    rw [coerceStringArray_roundtrip hm, coerceStringArray_roundtrip ha,
      coerceStringArray_roundtrip hev]
    have htr : truthy (.str t) = true := by simp [truthy, ht]
    rw [htr]
    rfl

theorem coerceTip_roundtrip (t : ItineraryTip) (hl : t.label ≠ "")
    (hd : ∀ s ∈ t.details, jsTrim s ≠ "") : coerceTip (tipToJValue t) = t := by
  rcases t with ⟨label, details⟩
  simp only at hl hd
  show ({ label := if truthy (.str label) then jToString (.str label) else "Tip",
          details := coerceStringArray (some (.arr (details.map JValue.str))) } : ItineraryTip) = _
  rw [coerceStringArray_roundtrip hd]
  have htr : truthy (.str label) = true := by simp [truthy, hl]
  rw [htr]
  rfl

/-- C7 counterexample: `normalize` can produce an itinerary whose `title` is
the empty string (here from `String([""]) = ""`); feeding that itinerary back
through `normalize` replaces the falsy empty title by `"Itinerary"`, so the
round trip is not the identity on every produced itinerary. -/
theorem normalizeItinerary_roundtrip_cex :
    normalizeItinerary (.obj [("title", .arr [.str ""]), ("days", .arr [.obj []])]) [] =
      some { title := "",
             days := [{ day := 1, theme := none, morning := [], afternoon := [], evening := [] }],
             transportNotes := [], tips := [], sources := [] }
    ∧ normalizeItinerary
        (itineraryToJValue
          { title := "",
            days := [{ day := 1, theme := none, morning := [], afternoon := [], evening := [] }],
            transportNotes := [], tips := [], sources := [] }) [] ≠
      some { title := "",
             days := [{ day := 1, theme := none, morning := [], afternoon := [], evening := [] }],
             transportNotes := [], tips := [], sources := [] } :=
  ⟨by decide, by decide⟩

/-- C7 (amended): normalization is idempotent on every produced itinerary
whose stringy fields are truthy and trim-non-empty — the title, day themes
and tip labels are non-empty, the coerced string lists contain no
blank-trimming entry, and the fallback list is empty whenever the itinerary's
sources are (so the sources branch re-selects the same list).  Every one of
these conditions is met by actual `normalize` outputs except for an empty
title, theme or label (produced only by falsy-stringifying inputs such as
`[""]`) and for blank fallback tokens, which is what the counterexample
exploits. -/
theorem normalizeItinerary_roundtrip (it : Itinerary) (fst : List String)
    (htitle : it.title ≠ "") (hdays : it.days ≠ [])
    (hday : ∀ d ∈ it.days, d.theme ≠ some "" ∧ (∀ s ∈ d.morning, jsTrim s ≠ "") ∧
        (∀ s ∈ d.afternoon, jsTrim s ≠ "") ∧ (∀ s ∈ d.evening, jsTrim s ≠ ""))
    (htips : ∀ t ∈ it.tips, t.label ≠ "" ∧ ∀ s ∈ t.details, jsTrim s ≠ "")
    (hnotes : ∀ s ∈ it.transportNotes, jsTrim s ≠ "")
    (hsources : ∀ s ∈ it.sources, jsTrim s ≠ "")
    (hfb : it.sources = [] → fst = []) :
    normalizeItinerary (itineraryToJValue it) fst = some it := by
  have hdaysRaw : daysRawOf (itineraryToJValue it) = it.days.map dayToJValue := rfl
  have hcoerce : (it.days.map dayToJValue).mapIdx coerceDay = it.days :=
    mapIdx_map_eq_self _ _ _ (fun i a haa =>
      coerceDay_roundtrip i a (hday a haa).1 (hday a haa).2.1 (hday a haa).2.2.1
        (hday a haa).2.2.2)
  rw [normalizeItinerary_eq,
    if_pos ⟨rfl, by rw [hdaysRaw, hcoerce]; exact fun hh => hdays hh⟩]
  congr 1
  have h1 : getField (itineraryToJValue it) "title" = some (.str it.title) := rfl
  have h2 : getField (itineraryToJValue it) "transportNotes" =
      some (.arr (it.transportNotes.map JValue.str)) := rfl
  have h3 : getField (itineraryToJValue it) "tips" =
      some (.arr (it.tips.map tipToJValue)) := rfl
  have h4 : getField (itineraryToJValue it) "sources" =
      some (.arr (it.sources.map JValue.str)) := rfl
  have htr : truthy (.str it.title) = true := by simp [truthy, htitle]
  have htips2 : List.map coerceTip (List.map tipToJValue it.tips) = it.tips := by
    rw [List.map_map]
    have hpt : ∀ a ∈ it.tips, (coerceTip ∘ tipToJValue) a = id a := fun a haa =>
      coerceTip_roundtrip a (htips a haa).1 (htips a haa).2
    rw [List.map_congr_left hpt, List.map_id]
  have hsrc : (if it.sources.length > 0 then it.sources else fst) = it.sources := by
    by_cases hse : it.sources = []
    · rw [hse, hfb hse]
      simp
    · exact if_pos (List.length_pos.mpr hse)
  simp only [normalizedRecord, hdaysRaw, hcoerce, h1, h2, h3, h4,
    coerceStringArray_roundtrip hnotes, coerceStringArray_roundtrip hsources,
    htr, if_true, htips2, hsrc]
  rfl

theorem normalizeItinerary_roundtrip_witness :
    normalizeItinerary
        (itineraryToJValue
          { title := "Trip",
            days := [{ day := 1, theme := some "Old town", morning := ["Walk"],
                       afternoon := [], evening := ["Plov dinner"] }],
            transportNotes := ["Use the metro"],
            tips := [{ label := "Cash", details := ["Carry som"] }],
            sources := ["S1"] }) ["S1"] =
      some { title := "Trip",
             days := [{ day := 1, theme := some "Old town", morning := ["Walk"],
                        afternoon := [], evening := ["Plov dinner"] }],
             transportNotes := ["Use the metro"],
             tips := [{ label := "Cash", details := ["Carry som"] }],
             sources := ["S1"] } :=
  normalizeItinerary_roundtrip _ _ (by decide) (by decide) (by decide) (by decide)
    (by decide) (by decide) (by decide)

/-! ## Lemmas about the retrieval engine -/

/-- C9: a document whose content is non-empty after trimming always yields at
least one chunk: the trimmed non-empty paragraphs of the blank-line split, or
the whole trimmed content as a single chunk when that split yields no
paragraph. -/
theorem chunkContent_spec (source : SourceRecord) (h : jsTrim source.content ≠ "") :
    chunkContent source ≠ []
    ∧ (paragraphsOf source ≠ [] → chunkContent source = paragraphsOf source)
    ∧ (paragraphsOf source = [] → chunkContent source = [jsTrim source.content]) := by
  by_cases hp : paragraphsOf source = []
  · have hc : chunkContent source = [jsTrim source.content] := by
      simp only [chunkContent]
      rw [if_pos ⟨by rw [hp]; rfl, h⟩]
    exact ⟨by rw [hc]; simp, fun hne => absurd hp hne, fun _ => hc⟩
  · have hlen : ¬(paragraphsOf source).length = 0 := by
      simpa [List.length_eq_zero] using hp
    have hc : chunkContent source = paragraphsOf source := by
      simp only [chunkContent]
      rw [if_neg (fun hand => hlen hand.1)]
    exact ⟨by rw [hc]; exact hp, fun _ => hc, fun he => absurd he hp⟩

theorem chunkContent_spec_witness :
    chunkContent { id := "a", title := "T", url := "U",
                   content := "Hello world", tags := none } ≠ [] :=
  (chunkContent_spec _ (by decide)).1

/-- C4: `retrieve` degrades to an empty result instead of failing — it is a
total function; a query whose tokenization is empty returns `[]` on any
index, and an index built from zero documents returns `[]` for every query
and limit. -/
theorem retrieve_degenerate (index : Index) (query : String) (k : ℕ)
    (query2 : String) (k2 : ℕ) :
    (tokenize query = [] → retrieve index query k = [])
    ∧ retrieve (buildIndex []) query2 k2 = [] := by
  constructor
  · intro htok
    unfold retrieve
    by_cases hc : index.chunks.length = 0
    · rw [if_pos hc]
    · rw [if_neg hc]
      simp [htok]
  · have hz : (buildIndex []).chunks.length = 0 := rfl
    unfold retrieve
    rw [if_pos hz]

theorem retrieve_degenerate_witness :
    retrieve (buildIndex []) "of the" 5 = [] ∧ retrieve (buildIndex []) "tashkent metro" 3 = [] :=
  ⟨(retrieve_degenerate (buildIndex []) "of the" 5 "x" 0).1 (by decide),
   (retrieve_degenerate (buildIndex []) "x" 0 "tashkent metro" 3).2⟩

theorem lookup_map_key {β : Type _} (keys : List String) (f : String → β) (t : String) :
    (keys.map (fun k => (k, f k))).lookup t = if t ∈ keys then some (f t) else none := by
  induction keys with
  | nil => rfl
  | cons k ks ih =>
    simp only [List.map_cons, List.lookup]
    by_cases hk : t = k
    · subst hk
      simp
    · have hbeq : (t == k) = false := beq_eq_false_iff_ne.mpr hk
      rw [hbeq, ih]
      simp [hk]

theorem mem_computeIdf_keys {chunks : List RawChunk} {t : String}
    (h : t ∈ ((chunks.map (fun chunk => chunk.tokens.dedup)).flatten.dedup)) :
    ∃ c ∈ chunks, t ∈ c.tokens := by
  rw [List.mem_dedup, List.mem_flatten] at h
  obtain ⟨l, hl, ht⟩ := h
  obtain ⟨c, hc, rfl⟩ := List.mem_map.mp hl
  exact ⟨c, hc, List.mem_dedup.mp ht⟩

/-- C2: every term of the IDF table gets weight `ln((N+1)/(df+1)) + 1` with
`N` the total chunk count and `df` the number of chunks containing the term;
such a weight is strictly positive; and a query token absent from the table
is vectorized with the default IDF weight `1`, i.e. weight `tf * 1`. -/
theorem computeIdf_spec (chunks : List RawChunk) (t : String) :
    (∀ v : ℝ, (computeIdf chunks).lookup t = some v →
        v = Real.log (((chunks.length : ℝ) + 1) /
              ((chunks.countP (fun c => c.tokens.contains t) : ℝ) + 1)) + 1
          ∧ 0 < v)
    ∧ ((computeIdf chunks).lookup t = none → ∀ tokens : List String, t ∈ tokens →
        (computeTfidf tokens (computeIdf chunks)).1.lookup t =
          some (((tokens.count t : ℝ) /
            (if tokens.length = 0 then (1 : ℝ) else (tokens.length : ℝ))) * 1)) := by
  constructor
  · intro v hv
    unfold computeIdf at hv
    rw [lookup_map_key] at hv
    by_cases hmem : t ∈ ((chunks.map (fun chunk => chunk.tokens.dedup)).flatten.dedup)
    · rw [if_pos hmem] at hv
      obtain ⟨c, hc, htc⟩ := mem_computeIdf_keys hmem
      have hdfpos : 0 < chunks.countP (fun c => c.tokens.contains t) :=
        List.countP_pos_iff.mpr ⟨c, hc, by simpa [List.elem_iff] using htc⟩
      have hlenpos : chunks.length ≠ 0 := by
        intro hlen
        rw [List.length_eq_zero] at hlen
        subst hlen
        exact absurd hc (List.not_mem_nil c)
      rw [if_neg hlenpos] at hv
      have hv2 : v = Real.log (((chunks.length : ℝ) + 1) /
          ((chunks.countP (fun c => c.tokens.contains t) : ℝ) + 1)) + 1 :=
        (Option.some.inj hv).symm
      refine ⟨hv2, ?_⟩
      rw [hv2]
      have hdf_le : chunks.countP (fun c => c.tokens.contains t) ≤ chunks.length :=
        List.countP_le_length _
      have hpos1 : (0 : ℝ) < (chunks.countP (fun c => c.tokens.contains t) : ℝ) + 1 := by
        positivity
      have hratio : (1 : ℝ) ≤ ((chunks.length : ℝ) + 1) /
          ((chunks.countP (fun c => c.tokens.contains t) : ℝ) + 1) := by
        rw [le_div_iff₀ hpos1]
        have : ((chunks.countP (fun c => c.tokens.contains t) : ℝ)) ≤ (chunks.length : ℝ) :=
          Nat.cast_le.mpr hdf_le
        linarith
      have hlog : 0 ≤ Real.log (((chunks.length : ℝ) + 1) /
          ((chunks.countP (fun c => c.tokens.contains t) : ℝ) + 1)) :=
        Real.log_nonneg hratio
      linarith
    · rw [if_neg hmem] at hv
      exact absurd hv (by simp)
  · intro hnone tokens ht
    show (tokens.dedup.map (fun token => (token, ((tokens.count token : ℝ) /
        (if tokens.length = 0 then (1 : ℝ) else (tokens.length : ℝ))) *
          (((computeIdf chunks).lookup token).getD 1)))).lookup t = _
    rw [lookup_map_key tokens.dedup (fun token => ((tokens.count token : ℝ) /
        (if tokens.length = 0 then (1 : ℝ) else (tokens.length : ℝ))) *
          (((computeIdf chunks).lookup token).getD 1)) t,
      if_pos (List.mem_dedup.mpr ht), hnone]
    rfl

theorem computeIdf_spec_witness :
    (0 : ℝ) < Real.log (((sampleChunks.length : ℝ) + 1) /
        ((sampleChunks.countP (fun c => c.tokens.contains "samarkand") : ℝ) + 1)) + 1
    ∧ (computeTfidf ["registan"] (computeIdf sampleChunks)).1.lookup "registan" =
        some ((((["registan"] : List String).count "registan" : ℝ) /
          (if (["registan"] : List String).length = 0 then (1 : ℝ)
           else ((["registan"] : List String).length : ℝ))) * 1) :=
  ⟨((computeIdf_spec sampleChunks "samarkand").1 _ rfl).2,
   (computeIdf_spec sampleChunks "registan").2 rfl ["registan"] (by decide)⟩

/-! ## Ranking: order, stability and the limit -/

theorem scoreLe_trans (a b c : Chunk × ℝ) (h1 : decide (b.2 ≤ a.2) = true)
    (h2 : decide (c.2 ≤ b.2) = true) : decide (c.2 ≤ a.2) = true := by
  simp only [decide_eq_true_eq] at h1 h2 ⊢
  exact le_trans h2 h1

theorem scoreLe_total (a b : Chunk × ℝ) :
    (decide (b.2 ≤ a.2) || decide (a.2 ≤ b.2)) = true := by
  rcases le_total b.2 a.2 with h | h <;> simp [h]

/-- Stability of the descending sort: the subsequence of entries carrying any
one score value is exactly the same, in the same order, before and after
sorting. -/
theorem mergeSort_filter_eq_self (l : List (Chunk × ℝ)) (s : ℝ) :
    (l.mergeSort (fun a b => decide (b.2 ≤ a.2))).filter (fun x => decide (x.2 = s)) =
      l.filter (fun x => decide (x.2 = s)) := by
  have hperm : List.Perm
      ((l.mergeSort (fun a b => decide (b.2 ≤ a.2))).filter (fun x => decide (x.2 = s)))
      (l.filter (fun x => decide (x.2 = s))) :=
    (List.mergeSort_perm l _).filter _
  have hpw : (l.filter (fun x => decide (x.2 = s))).Pairwise
      (fun a b => decide (b.2 ≤ a.2) = true) := by
    apply List.pairwise_of_forall_mem_list
    intro a ha b hb
    have ha2 := List.of_mem_filter ha
    have hb2 := List.of_mem_filter hb
    simp only [decide_eq_true_eq] at ha2 hb2 ⊢
    rw [ha2, hb2]
  have hsub : List.Sublist (l.filter (fun x => decide (x.2 = s)))
      (l.mergeSort (fun a b => decide (b.2 ≤ a.2))) :=
    List.sublist_mergeSort (fun a b c => scoreLe_trans a b c) scoreLe_total hpw
      (List.filter_sublist l)
  have hsub2 := hsub.filter (fun x => decide (x.2 = s))
  have hself : (l.filter (fun x => decide (x.2 = s))).filter (fun x => decide (x.2 = s)) =
      l.filter (fun x => decide (x.2 = s)) := by
    apply List.filter_eq_self.mpr
    intro a ha
    have h2 := (List.mem_filter.mp ha).2
    exact h2
  rw [hself] at hsub2
  exact (hsub2.eq_of_length hperm.length_eq.symm).symm

theorem mergeSort_take_sorted (l : List (Chunk × ℝ)) (k : ℕ) :
    ((l.mergeSort (fun a b => decide (b.2 ≤ a.2))).take k).Pairwise
      (fun a b => b.2 ≤ a.2) := by
  have hs := @List.sorted_mergeSort (Chunk × ℝ) (fun a b => decide (b.2 ≤ a.2))
    (fun a b c => scoreLe_trans a b c) scoreLe_total l
  have hs2 : (l.mergeSort (fun a b => decide (b.2 ≤ a.2))).Pairwise
      (fun a b : Chunk × ℝ => b.2 ≤ a.2) :=
    hs.imp (fun h => by simpa using h)
  exact List.Pairwise.sublist (List.take_sublist k _) hs2

/-- Unfolding of `retrieve` on a non-empty index and a query with tokens. -/
theorem retrieve_main (index : Index) (query : String) (k : ℕ)
    (h0 : ¬index.chunks.length = 0) (h1 : ¬(tokenize query).length = 0) :
    retrieve index query k =
      ((((index.chunks.map (fun chunk => (chunk, cosineSimilarity
            (computeTfidf (tokenize query) index.idf).1
            (computeTfidf (tokenize query) index.idf).2 chunk))).filter
          (fun item => decide ((0.05 : ℝ) < item.2))).mergeSort
          (fun a b => decide (b.2 ≤ a.2))).take k).map (fun item =>
        ({ id := item.1.id, sourceId := item.1.sourceId, title := item.1.title,
           url := item.1.url, content := item.1.content, score := item.2 } : RetrievedChunk)) := by
  simp only [retrieve, h0, h1, if_false]

/-- C1: for every index, query and limit `k`, `retrieve` returns at most `k`
results, their scores are non-increasing along the list, and the results
carrying any one score value appear in the chunks' original index order (they
form a sublist of the chunk sequence viewed at that score). -/
theorem retrieve_sorted_stable (index : Index) (query : String) (k : ℕ) :
    (retrieve index query k).length ≤ k
    ∧ (retrieve index query k).Pairwise (fun a b => b.score ≤ a.score)
    ∧ (∀ s : ℝ, List.Sublist ((retrieve index query k).filter (fun r => decide (r.score = s)))
        (index.chunks.map (fun c => chunkAtScore c s))) := by
  by_cases h0 : index.chunks.length = 0
  · have hr : retrieve index query k = [] := by
      unfold retrieve
      rw [if_pos h0]
    rw [hr]
    exact ⟨Nat.zero_le k, List.Pairwise.nil, fun s => List.nil_sublist _⟩
  · by_cases h1 : (tokenize query).length = 0
    · have hr : retrieve index query k = [] := by
        unfold retrieve
        rw [if_neg h0]
        simp [h1]
      rw [hr]
      exact ⟨Nat.zero_le k, List.Pairwise.nil, fun s => List.nil_sublist _⟩
    · rw [retrieve_main index query k h0 h1]
      set pairF : Chunk → Chunk × ℝ := fun chunk => (chunk, cosineSimilarity
          (computeTfidf (tokenize query) index.idf).1
          (computeTfidf (tokenize query) index.idf).2 chunk) with hpairF
      set L : List (Chunk × ℝ) :=
        (index.chunks.map pairF).filter (fun item => decide ((0.05 : ℝ) < item.2)) with hL
      set M := L.mergeSort (fun a b => decide (b.2 ≤ a.2)) with hM
      set toR : Chunk × ℝ → RetrievedChunk := fun item =>
        { id := item.1.id, sourceId := item.1.sourceId, title := item.1.title,
          url := item.1.url, content := item.1.content, score := item.2 } with htoR
      refine ⟨?_, ?_, ?_⟩
      · rw [List.length_map, List.length_take]
        exact min_le_left _ _
      · rw [List.pairwise_map]
        exact mergeSort_take_sorted L k
      · intro s
        rw [List.filter_map]
        have e1 : ((M.take k).filter ((fun r => decide (r.score = s)) ∘ toR)) =
            ((M.take k).filter (fun x : Chunk × ℝ => decide (x.2 = s))) := rfl
        rw [e1]
        have s1 : List.Sublist ((M.take k).filter (fun x : Chunk × ℝ => decide (x.2 = s)))
            (M.filter (fun x => decide (x.2 = s))) :=
          (List.take_sublist k M).filter _
        have e2 : M.filter (fun x : Chunk × ℝ => decide (x.2 = s)) =
            L.filter (fun x => decide (x.2 = s)) := mergeSort_filter_eq_self L s
        have s2 : List.Sublist (L.filter (fun x : Chunk × ℝ => decide (x.2 = s)))
            ((index.chunks.map pairF).filter (fun x => decide (x.2 = s))) :=
          (List.filter_sublist _).filter _
        have e3 : (index.chunks.map pairF).filter (fun x : Chunk × ℝ => decide (x.2 = s)) =
            (index.chunks.filter (fun c => decide ((pairF c).2 = s))).map pairF :=
          List.filter_map pairF index.chunks
        have big : List.Sublist ((M.take k).filter (fun x : Chunk × ℝ => decide (x.2 = s)))
            ((index.chunks.filter (fun c => decide ((pairF c).2 = s))).map pairF) := by
          rw [← e3]
          refine List.Sublist.trans ?_ s2
          rw [← e2]
          exact s1
        have e4 : ((index.chunks.filter (fun c => decide ((pairF c).2 = s))).map pairF).map toR =
            (index.chunks.filter (fun c => decide ((pairF c).2 = s))).map
              (fun c => chunkAtScore c s) := by
          rw [List.map_map]
          apply List.map_congr_left
          intro c hc
          have hcs := List.of_mem_filter hc
          rw [decide_eq_true_eq] at hcs
          show toR (pairF c) = chunkAtScore c s
          rw [← hcs, htoR, hpairF]
          rfl
        have final := big.map toR
        rw [e4] at final
        exact final.trans ((List.filter_sublist index.chunks).map _)

/-! ## Scores are cosine similarities in the unit interval -/

/-- Cauchy-Schwarz for the dot product `cosineSimilarity` computes over the
query vector's entries: it is at most the product of the two stored norms. -/
theorem list_dot_le (A B : List String) (f g : String → ℝ) :
    ((A.dedup.map (fun t => (t, f t))).map (fun p => p.2 *
        (((B.dedup.map (fun u => (u, g u))).lookup p.1).getD 0))).sum ≤
      Real.sqrt (((A.dedup.map (fun t => (t, f t))).map (fun p => p.2 * p.2)).sum) *
        Real.sqrt (((B.dedup.map (fun u => (u, g u))).map (fun p => p.2 * p.2)).sum) := by
  set gD : String → ℝ := fun t => (((B.dedup.map (fun u => (u, g u))).lookup t).getD 0) with hgD
  have e1 : ((A.dedup.map (fun t => (t, f t))).map (fun p => p.2 *
      (((B.dedup.map (fun u => (u, g u))).lookup p.1).getD 0))).sum =
      (A.dedup.map (fun t => f t * gD t)).sum := by
    rw [List.map_map]
    rfl
  have e2 : (A.dedup.map (fun t => f t * gD t)).sum =
      ∑ t in A.dedup.toFinset, f t * gD t :=
    (List.sum_toFinset _ (List.nodup_dedup A)).symm
  have e3 : ((A.dedup.map (fun t => (t, f t))).map (fun p => p.2 * p.2)).sum =
      ∑ t in A.dedup.toFinset, f t * f t := by
    rw [List.map_map]
    exact (List.sum_toFinset _ (List.nodup_dedup A)).symm
  have e4 : ((B.dedup.map (fun u => (u, g u))).map (fun p => p.2 * p.2)).sum =
      ∑ t in B.dedup.toFinset, g t * g t := by
    rw [List.map_map]
    exact (List.sum_toFinset _ (List.nodup_dedup B)).symm
  have hgDzero : ∀ t, t ∉ B.dedup → gD t = 0 := by
    intro t ht
    rw [hgD]
    simp only
    rw [lookup_map_key, if_neg ht]
    rfl
  have hgDval : ∀ t, t ∈ B.dedup → gD t = g t := by
    intro t ht
    rw [hgD]
    simp only
    rw [lookup_map_key, if_pos ht]
    rfl
  have hcs := Real.sum_mul_le_sqrt_mul_sqrt A.dedup.toFinset f gD
  have hpow1 : ∑ t in A.dedup.toFinset, f t ^ 2 = ∑ t in A.dedup.toFinset, f t * f t :=
    Finset.sum_congr rfl (fun t _ => pow_two (f t))
  have hpow2 : ∑ t in B.dedup.toFinset, g t ^ 2 = ∑ t in B.dedup.toFinset, g t * g t :=
    Finset.sum_congr rfl (fun t _ => pow_two (g t))
  have hsub : ∑ t in A.dedup.toFinset, gD t ^ 2 ≤ ∑ t in B.dedup.toFinset, g t ^ 2 := by
    have hstep1 : ∑ t in A.dedup.toFinset ∩ B.dedup.toFinset, gD t ^ 2 =
        ∑ t in A.dedup.toFinset, gD t ^ 2 :=
      Finset.sum_subset Finset.inter_subset_left (fun t htA htn => by
        have htB : t ∉ B.dedup.toFinset := fun hB => htn (Finset.mem_inter.mpr ⟨htA, hB⟩)
        rw [hgDzero t (fun hmem => htB (List.mem_toFinset.mpr hmem))]
        ring)
    rw [← hstep1]
    have hstep2 : ∑ t in A.dedup.toFinset ∩ B.dedup.toFinset, gD t ^ 2 =
        ∑ t in A.dedup.toFinset ∩ B.dedup.toFinset, g t ^ 2 :=
      Finset.sum_congr rfl (fun t ht => by
        rw [hgDval t (List.mem_toFinset.mp (Finset.mem_inter.mp ht).2)])
    rw [hstep2]
    exact Finset.sum_le_sum_of_subset_of_nonneg Finset.inter_subset_right
      (fun i _ _ => sq_nonneg (g i))
  calc ((A.dedup.map (fun t => (t, f t))).map (fun p => p.2 *
          (((B.dedup.map (fun u => (u, g u))).lookup p.1).getD 0))).sum
      = ∑ t in A.dedup.toFinset, f t * gD t := by rw [e1, e2]
    _ ≤ Real.sqrt (∑ t in A.dedup.toFinset, f t ^ 2) *
          Real.sqrt (∑ t in A.dedup.toFinset, gD t ^ 2) := hcs
    _ ≤ Real.sqrt (∑ t in A.dedup.toFinset, f t ^ 2) *
          Real.sqrt (∑ t in B.dedup.toFinset, g t ^ 2) :=
        mul_le_mul_of_nonneg_left (Real.sqrt_le_sqrt hsub) (Real.sqrt_nonneg _)
    _ = Real.sqrt (((A.dedup.map (fun t => (t, f t))).map (fun p => p.2 * p.2)).sum) *
          Real.sqrt (((B.dedup.map (fun u => (u, g u))).map (fun p => p.2 * p.2)).sum) := by
        rw [hpow1, hpow2, ← e3, ← e4]

/-- The cosine similarity of a query vector and a chunk vector, both produced
by `computeTfidf` against the same IDF table, is at most `1`. -/
theorem cosineSimilarity_le_one (idf : List (String × ℝ)) (qtokens ctokens : List String)
    (cid csid ct cu cc : String) :
    cosineSimilarity (computeTfidf qtokens idf).1 (computeTfidf qtokens idf).2
      ({ id := cid, sourceId := csid, title := ct, url := cu, content := cc,
         tfidf := (computeTfidf ctokens idf).1, norm := (computeTfidf ctokens idf).2 } : Chunk)
      ≤ 1 := by
  unfold cosineSimilarity
  split_ifs with h
  · norm_num
  · push_neg at h
    obtain ⟨hq0, hc0⟩ := h
    have hqnonneg : 0 ≤ (computeTfidf qtokens idf).2 := Real.sqrt_nonneg _
    have hcnonneg : 0 ≤ (computeTfidf ctokens idf).2 := Real.sqrt_nonneg _
    have hqpos : 0 < (computeTfidf qtokens idf).2 := lt_of_le_of_ne hqnonneg (Ne.symm hq0)
    have hcpos : 0 < (computeTfidf ctokens idf).2 := lt_of_le_of_ne hcnonneg (Ne.symm hc0)
    rw [div_le_one (mul_pos hqpos hcpos)]
    exact list_dot_le qtokens ctokens
      (fun token => ((qtokens.count token : ℝ) /
        (if qtokens.length = 0 then (1 : ℝ) else (qtokens.length : ℝ))) *
          ((idf.lookup token).getD 1))
      (fun token => ((ctokens.count token : ℝ) /
        (if ctokens.length = 0 then (1 : ℝ) else (ctokens.length : ℝ))) *
          ((idf.lookup token).getD 1))

/-- Every chunk of a built index carries the TF-IDF vector and norm computed
from some token list against the index's own IDF table. -/
theorem buildIndex_chunk_shape {docs : List SourceRecord} {c : Chunk}
    (hc : c ∈ (buildIndex docs).chunks) :
    ∃ (tokens : List String) (i s t u co : String),
      c = { id := i, sourceId := s, title := t, url := u, content := co,
            tfidf := (computeTfidf tokens (buildIndex docs).idf).1,
            norm := (computeTfidf tokens (buildIndex docs).idf).2 } := by
  obtain ⟨rc, hrc, rfl⟩ := List.mem_map.mp (show _ from hc)
  exact ⟨rc.tokens, rc.id, rc.sourceId, rc.title, rc.url, rc.content, rfl⟩

/-- C3: every result of `retrieve` on a built index has a score strictly
above the fixed relevance threshold `0.05` and at most `1`; and the cosine
similarity is defined as `0` whenever either vector's norm is `0`. -/
theorem retrieve_score_range (docs : List SourceRecord) (query : String) (k : ℕ) :
    (retrieve (buildIndex docs) query k).Forall
      (fun r => (0.05 : ℝ) < r.score ∧ r.score ≤ 1)
    ∧ (∀ (qv : List (String × ℝ)) (c : Chunk), cosineSimilarity qv 0 c = 0)
    ∧ (∀ (qv : List (String × ℝ)) (qn : ℝ) (c : Chunk),
        cosineSimilarity qv qn { c with norm := 0 } = 0) := by
  refine ⟨?_, ?_, ?_⟩
  · rw [List.forall_iff_forall_mem]
    intro r hr
    by_cases h0 : (buildIndex docs).chunks.length = 0
    · rw [show retrieve (buildIndex docs) query k = [] from by
        unfold retrieve; rw [if_pos h0]] at hr
      exact absurd hr (List.not_mem_nil r)
    · by_cases h1 : (tokenize query).length = 0
      · rw [show retrieve (buildIndex docs) query k = [] from by
          unfold retrieve; rw [if_neg h0]; simp [h1]] at hr
        exact absurd hr (List.not_mem_nil r)
      · rw [retrieve_main _ _ _ h0 h1] at hr
        obtain ⟨item, hitem, rfl⟩ := List.mem_map.mp hr
        have hitem2 := List.mem_mergeSort.mp (List.mem_of_mem_take hitem)
        have hgt : (0.05 : ℝ) < item.2 := by
          have := (List.mem_filter.mp hitem2).2
          simpa using this
        obtain ⟨c, hc, rfl⟩ := List.mem_map.mp (List.mem_filter.mp hitem2).1
        refine ⟨hgt, ?_⟩
        obtain ⟨tokens, i, s, t, u, co, rfl⟩ := buildIndex_chunk_shape hc
        exact cosineSimilarity_le_one (buildIndex docs).idf (tokenize query) tokens i s t u co
  · intro qv c
    unfold cosineSimilarity
    rw [if_pos (Or.inl rfl)]
  · intro qv qn c
    unfold cosineSimilarity
    rw [if_pos (Or.inr rfl)]

end Uzbek
